import Mathlib

/-!
Shallow embedding of the trigger-early-warning pipeline
(`fred_fetch.py`, `preprocess.py`, `triggers.py`, `models.py`).

Numeric cells are embedded as exact rationals (`ℚ`); missing cells
(pandas `NaN`) are `Option.none`.  The z-score involves a square root, so
it lives in `ℝ` (`Real.sqrt` of a rational sample variance).  Time is
embedded at monthly granularity: a raw-series timestamp is represented by
the month (a `ℕ`) it falls in, which is the only information the
month-end resampling in `make_dashboard_df` consumes.
-/

/- ------------------------------------------------------------------
Rolling statistics (preprocess.py: `zscore`, pandas `rolling`)
------------------------------------------------------------------ -/

/-- Arithmetic mean of a list of rationals (`sum / len`). -/
def qmean (l : List ℚ) : ℚ := l.sum / l.length

/-- The trailing window of size `w` ending at position `i`:
`xs[i+1-w .. i]`, exactly the observations pandas `rolling(w)` sees at
position `i` (when `w ≤ i+1` it has length `w`). -/
def winAt (xs : List ℚ) (w i : ℕ) : List ℚ := (xs.take (i + 1)).drop (i + 1 - w)

/-- pandas `series.rolling(w).mean()`: at position `i` the mean of the
trailing `w` observations, missing while the window is not yet full
(`min_periods` defaults to the window size). -/
def rollingMean (xs : List ℚ) (w : ℕ) : List (Option ℚ) :=
  (List.range xs.length).map (fun i =>
    if i + 1 < w then none else some (qmean (winAt xs w i)))

/-- Sample variance (`ddof = 1`, as pandas `std` uses) of a list. -/
def sampleVarQ (l : List ℚ) : ℚ :=
  ((l.map (fun x => (x - qmean l) ^ 2)).sum) / ((l.length : ℚ) - 1)

/-- pandas `series.rolling(w).std()`: sample standard deviation of the
trailing window, missing while the window is not full and for `w = 1`
(where the `ddof = 1` variance is `0/0`, i.e. `NaN`). -/
noncomputable def rollingStd (xs : List ℚ) (w : ℕ) : List (Option ℝ) :=
  (List.range xs.length).map (fun i =>
    if i + 1 < w ∨ w < 2 then none
    else some (Real.sqrt ((sampleVarQ (winAt xs w i) : ℚ) : ℝ)))

open scoped Classical in
/-- preprocess.zscore: `(series - roll.mean()) / roll.std()` elementwise.
A position is missing when either rolling operand is missing.  When the
std is `0` every window value equals the mean, so the float division is
`0/0 = NaN`, i.e. missing, which the `s = 0` branch embeds. -/
noncomputable def zscore (xs : List ℚ) (w : ℕ) : List (Option ℝ) :=
  (List.range xs.length).map (fun i =>
    match (rollingMean xs w).getD i none, (rollingStd xs w).getD i none with
    | some m, some s =>
        if s = 0 then none else some ((((xs.getD i 0 - m : ℚ)) : ℝ) / s)
    | _, _ => none)

/- ------------------------------------------------------------------
Trigger evaluator (triggers.py: `evaluate_triggers`)
------------------------------------------------------------------ -/

/-- One dashboard row restricted to the five columns `evaluate_triggers`
reads; each cell may be missing. -/
structure TRow where
  UNRATE : Option ℚ
  HY_OAS : Option ℚ
  TEMP : Option ℚ
  DELINQ : Option ℚ
  term_spread : Option ℚ

/-- A fully populated row of the filtered view
(`df.dropna(subset=required)`). -/
structure QRow where
  UNRATE : ℚ
  HY_OAS : ℚ
  TEMP : ℚ
  DELINQ : ℚ
  term_spread : ℚ
deriving DecidableEq

/-- `df.dropna(subset=["UNRATE","HY_OAS","TEMP","DELINQ","term_spread"])`:
keep exactly the rows where all five required columns are present. -/
def dropnaRequired (df : List TRow) : List QRow :=
  df.filterMap (fun r =>
    match r.UNRATE, r.HY_OAS, r.TEMP, r.DELINQ, r.term_spread with
    | some a, some b, some c, some d, some e => some ⟨a, b, c, d, e⟩
    | _, _, _, _, _ => none)

/-- The three trigger severity states. -/
inductive TState where
  | Normal
  | Watch
  | Danger
deriving DecidableEq

/-- The mapping returned by `evaluate_triggers`: one state per trigger. -/
structure Triggers where
  termSpread : TState
  hyOAS : TState
  tempHelpYoY : TState
  sahm : TState
  cardDelinq : TState

/-- `ts.iloc[-1]`: latest term spread of the filtered view. -/
def tsLatest (v : List QRow) : ℚ := ((v.map QRow.term_spread).getLast?).getD 0

/-- `hy.iloc[-1]`: latest high-yield OAS of the filtered view. -/
def hyLatest (v : List QRow) : ℚ := ((v.map QRow.HY_OAS).getLast?).getD 0

/-- `(temp.iloc[-1] / temp.iloc[-13] - 1) * 100`: year-over-year change
of the temp-help index (latest against the value 12 rows earlier). -/
def tempYoY (v : List QRow) : ℚ :=
  let t := v.map QRow.TEMP
  (t.getLast?.getD 0 / t.getD (t.length - 13) 0 - 1) * 100

/-- `un.iloc[-12:].min()`: minimum unemployment over the last 12 rows. -/
def sahmLow (v : List QRow) : ℚ :=
  (((v.map QRow.UNRATE).drop (v.length - 12)).min?).getD 0

/-- `un.rolling(3).mean().iloc[-1]`: 3-month trailing mean of
unemployment at the latest row. -/
def sahm3mma (v : List QRow) : ℚ :=
  (((rollingMean (v.map QRow.UNRATE) 3).getLast?).getD none).getD 0

/-- `gap = un_3mma - un_low`, the Sahm-rule gap. -/
def sahmGap (v : List QRow) : ℚ := sahm3mma v - sahmLow v

/-- `zscore(delinq).iloc[-1]` with the default 60-period window:
latest delinquency z-score, possibly missing (`NaN`). -/
noncomputable def delinqZ (v : List QRow) : Option ℝ :=
  ((zscore (v.map QRow.DELINQ) 60).getLast?).getD none

/-- The error message raised on insufficient history. -/
def insufficientMsg : String :=
  "Not enough non-NaN history in trigger series (need >= 13 months)."

open scoped Classical in
/-- The Card Delinquency threshold block: `d_z >= 1.0` / `d_z >= 0.5`.
A missing (`NaN`) z-score fails both float comparisons, giving
`Normal`. -/
noncomputable def zState : Option ℝ → TState
  | none => .Normal
  | some z =>
    if 1.0 ≤ z then .Danger
    else if 0.5 ≤ z then .Watch
    else .Normal

open scoped Classical in
/-- triggers.evaluate_triggers: filter to fully populated rows, require
at least 13 of them, then threshold each of the five metrics.  A missing
(`NaN`) z-score fails both float comparisons `d_z >= 1.0` and
`d_z >= 0.5`, so the `none` branch yields `Normal`. -/
noncomputable def evaluate_triggers (df : List TRow) : Except String Triggers :=
  let v := dropnaRequired df
  if v.length < 13 then
    Except.error insufficientMsg
  else
    Except.ok
      { termSpread :=
          if tsLatest v ≤ 0 then .Danger
          else if tsLatest v ≤ 0.5 then .Watch
          else .Normal
        hyOAS :=
          if 6.0 ≤ hyLatest v then .Danger
          else if 4.5 ≤ hyLatest v then .Watch
          else .Normal
        tempHelpYoY :=
          if tempYoY v ≤ -6 then .Danger
          else if tempYoY v ≤ -3 then .Watch
          else .Normal
        sahm :=
          if 0.4 ≤ sahmGap v then .Danger
          else if 0.2 ≤ sahmGap v then .Watch
          else .Normal
        cardDelinq := zState (delinqZ v) }

/- ------------------------------------------------------------------
Remote fetch (fred_fetch.py: `fred`)
------------------------------------------------------------------ -/

/-- A simulated provider: attempt number (1-based) to either `none`
(the `DataReader` call raised) or a raw frame, whose values may be
missing. -/
abbrev Provider := ℕ → Option (List (ℕ × Option ℚ))

/-- `df.dropna()`: keep only rows with a present value. -/
def dropnaRaw (l : List (ℕ × Option ℚ)) : List (ℕ × ℚ) :=
  l.filterMap (fun p => p.2.map (fun x => (p.1, x)))

/-- An attempt fails when the provider raises or returns an empty frame
(`if df is None or df.empty: raise ValueError("Empty response")`). -/
def attemptFails (provider : Provider) (a : ℕ) : Bool :=
  match provider a with
  | none => true
  | some df => df.isEmpty

/-- The message of the error raised after the third failed attempt. -/
def exhaustMsg (series : String) : String :=
  "[FRED ERROR] " ++ series ++ " failed after 3 attempts."

/-- Outcome of a `fred` call: the returned frame or raised error, how
many attempts were made, and the list of backoff sleeps (in seconds). -/
structure FetchResult where
  result : Except String (List (ℕ × ℚ))
  attempts : ℕ
  waits : List ℕ

/-- The retry loop body (`for attempt in range(1, 4)`), with the number
of remaining loop iterations as fuel.  On failure before attempt 3 it
sleeps `2 ^ (attempt - 1)` seconds and retries; at attempt 3 it raises;
on success it returns the frame with missing rows dropped. -/
def fredAux (provider : Provider) (series : String) : ℕ → ℕ → FetchResult
  | _, 0 => ⟨Except.error (exhaustMsg series), 3, []⟩
  | attempt, fuel + 1 =>
    if attemptFails provider attempt then
      if attempt < 3 then
        let r := fredAux provider series (attempt + 1) fuel
        ⟨r.result, r.attempts, 2 ^ (attempt - 1) :: r.waits⟩
      else
        ⟨Except.error (exhaustMsg series), attempt, []⟩
    else
      ⟨Except.ok (dropnaRaw ((provider attempt).getD [])), attempt, []⟩

/-- fred_fetch.fred: three attempts starting at attempt 1. -/
def fred (provider : Provider) (series : String) : FetchResult :=
  fredAux provider series 1 3

/- ------------------------------------------------------------------
Alignment engine (preprocess.py: `make_dashboard_df`)
------------------------------------------------------------------ -/

/-- A fetched raw series: (month, value) observation pairs in
chronological order (several observations may fall in one month). -/
abbrev RawS := List (ℕ × ℚ)

/-- Months carried by a resampled single-column frame. -/
def monthsOf (l : List (ℕ × Option ℚ)) : List ℕ := l.map Prod.fst

/-- The month of the first raw observation. -/
def firstMonth (s : RawS) : ℕ := ((s.map Prod.fst).min?).getD 0

/-- The month of the last raw observation. -/
def lastMonth (s : RawS) : ℕ := ((s.map Prod.fst).max?).getD 0

/-- The last observation falling in month `m`, if any. -/
def lastInMonth (s : RawS) (m : ℕ) : Option ℚ :=
  ((s.filter (fun p => p.1 == m)).map Prod.snd).getLast?

/-- pandas `s.resample("ME").last()`: one slot per month from the first
through the last observed month (a contiguous monthly grid), holding the
last observation within each month, `NaN` for empty months. -/
def resampleLast (s : RawS) : List (ℕ × Option ℚ) :=
  if s = [] then []
  else (List.range' (firstMonth s) (lastMonth s + 1 - firstMonth s)).map
    (fun m => (m, lastInMonth s m))

/-- `ffill` with an explicit carry: a missing slot takes the most recent
present value. -/
def ffillFrom : Option ℚ → List (ℕ × Option ℚ) → List (ℕ × Option ℚ)
  | _, [] => []
  | carry, (m, v) :: rest =>
    match v with
    | some x => (m, some x) :: ffillFrom (some x) rest
    | none => (m, carry) :: ffillFrom carry rest

/-- pandas `.ffill()` on a resampled single-column frame. -/
def ffillCol (l : List (ℕ × Option ℚ)) : List (ℕ × Option ℚ) :=
  ffillFrom none l

/-- Cell lookup of a single-column frame inside the outer join: months
absent from the frame's index and months present with a `NaN` value both
give a missing cell. -/
def colLookup (l : List (ℕ × Option ℚ)) (m : ℕ) : Option ℚ :=
  (l.find? (fun p => p.1 == m)).bind Prod.snd

/-- The eight fetched input series, in the order of `series_map`. -/
structure RawInputs where
  dgs2 : RawS
  dtb3 : RawS
  hy : RawS
  temp : RawS
  delinq : RawS
  unrate : RawS
  usrec : RawS
  dgs10 : RawS

/-- The eight resampled monthly single-column frames, with forward-fill
applied to `DELINQ` (quarterly) and `USREC` (0/1 flag) exactly as in
`make_dashboard_df`. -/
def resampledCols (r : RawInputs) : List (List (ℕ × Option ℚ)) :=
  [resampleLast r.dgs2, resampleLast r.dtb3, resampleLast r.hy,
   resampleLast r.temp, ffillCol (resampleLast r.delinq),
   resampleLast r.unrate, ffillCol (resampleLast r.usrec),
   resampleLast r.dgs10]

/-- Insert a month into a strictly sorted list of months, keeping it
strictly sorted and duplicate-free. -/
def insertMonth (m : ℕ) : List ℕ → List ℕ
  | [] => [m]
  | x :: xs =>
    if m < x then m :: x :: xs
    else if m = x then x :: xs
    else x :: insertMonth m xs

/-- The outer-join index: the union of the months of all resampled
series, sorted ascending and duplicate-free
(`pd.concat(..., join="outer").sort_index()`). -/
def joinedIndex (r : RawInputs) : List ℕ :=
  (resampledCols r).foldr (fun l acc => (monthsOf l).foldr insertMonth acc) []

/-- The aligned dashboard dataset: the joined monthly index plus one
cell function per column (defined on months of the index). -/
structure Dashboard where
  index : List ℕ
  DGS2 : ℕ → Option ℚ
  DTB3 : ℕ → Option ℚ
  HY_OAS : ℕ → Option ℚ
  TEMP : ℕ → Option ℚ
  DELINQ : ℕ → Option ℚ
  UNRATE : ℕ → Option ℚ
  USREC : ℕ → Option ℚ
  DGS10 : ℕ → Option ℚ
  term_spread : ℕ → Option ℚ

/-- preprocess.make_dashboard_df: resample every series to month-end
(forward-filling `DELINQ` and `USREC`), outer-join on the union of
months, sort the index, and derive
`df["term_spread"] = df["DGS2"] - df["DTB3"]` from the joined columns
(`NaN` propagates through the subtraction). -/
def make_dashboard_df (r : RawInputs) : Dashboard :=
  let c2 := colLookup (resampleLast r.dgs2)
  let c3 := colLookup (resampleLast r.dtb3)
  { index := joinedIndex r
    DGS2 := c2
    DTB3 := c3
    HY_OAS := colLookup (resampleLast r.hy)
    TEMP := colLookup (resampleLast r.temp)
    DELINQ := colLookup (ffillCol (resampleLast r.delinq))
    UNRATE := colLookup (resampleLast r.unrate)
    USREC := colLookup (ffillCol (resampleLast r.usrec))
    DGS10 := colLookup (resampleLast r.dgs10)
    term_spread := fun m =>
      match c2 m, c3 m with
      | some a, some b => some (a - b)
      | _, _ => none }

/- ------------------------------------------------------------------
Probability model (models.py: `build_nyfed_prob`)
------------------------------------------------------------------ -/

/-- One dashboard row restricted to the two columns the NY Fed model
reads. -/
structure MRow where
  DGS10 : Option ℚ
  DTB3 : Option ℚ

/-- models.build_nyfed_prob: per row, `spread = DGS10 - DTB3` (missing
propagates), `logit = beta0 + beta1 * spread` with `beta0 = -0.5333`,
`beta1 = -1.6278`, and probability `1 / (1 + exp(-logit)) * 100`.  The
output is keyed by the full index of the input (one entry per row). -/
noncomputable def build_nyfed_prob (rows : List MRow) : List (Option ℝ) :=
  rows.map (fun r =>
    match r.DGS10, r.DTB3 with
    | some a, some b =>
        some ((1 / (1 + Real.exp (-((-0.5333) + (-1.6278) * ((a : ℝ) - (b : ℝ)))))) * 100)
    | _, _ => none)

/-- The spec's closed form of the probability as a function of the
spread: `100 / (1 + exp(-(beta0 + beta1 * spread)))`. -/
noncomputable def nyfedProbSpec (s : ℝ) : ℝ :=
  100 / (1 + Real.exp (-((-0.5333) + (-1.6278) * s)))

/- ------------------------------------------------------------------
Generic helper lemmas
------------------------------------------------------------------ -/

lemma rangeMap_getD {α : Type*} (f : ℕ → α) (n i : ℕ) (d : α) (h : i < n) :
    ((List.range n).map f).getD i d = f i := by
  rw [List.getD_eq_getElem?_getD, List.getElem?_map, List.getElem?_range h]
  rfl

lemma rangeMap_getLast? {α : Type*} (f : ℕ → α) (n : ℕ) (h : 0 < n) :
    ((List.range n).map f).getLast? = some (f (n - 1)) := by
  rw [List.getLast?_eq_getElem?]
  simp only [List.length_map, List.length_range]
  rw [List.getElem?_map, List.getElem?_range (by omega)]
  rfl

lemma foldl_min_le_self (xs : List ℚ) (x : ℚ) : xs.foldl min x ≤ x := by
  induction xs generalizing x with
  | nil => simp
  | cons y ys ih => exact le_trans (ih (min x y)) (min_le_left x y)

lemma foldl_min_le_mem {xs : List ℚ} {b : ℚ} (x : ℚ) (hb : b ∈ xs) :
    xs.foldl min x ≤ b := by
  induction xs generalizing x with
  | nil => cases hb
  | cons y ys ih =>
    rcases List.mem_cons.mp hb with h | h
    · subst h
      exact le_trans (foldl_min_le_self ys (min x b)) (min_le_right x b)
    · exact ih (min x y) h

lemma min?_le {l : List ℚ} {a b : ℚ} (h : l.min? = some a) (hb : b ∈ l) :
    a ≤ b := by
  cases l with
  | nil => cases hb
  | cons x xs =>
    have ha : a = xs.foldl min x := by
      simpa [List.min?] using h.symm
    subst ha
    rcases List.mem_cons.mp hb with h' | h'
    · subst h'; exact foldl_min_le_self xs b
    · exact foldl_min_le_mem x h'

lemma le_qmean_of_forall_le {l : List ℚ} {c : ℚ} (hne : l ≠ [])
    (h : ∀ x ∈ l, c ≤ x) : c ≤ qmean l := by
  have hlen : 0 < (l.length : ℚ) := by
    have := List.length_pos.mpr hne
    exact_mod_cast this
  have hsum : (l.length : ℚ) * c ≤ l.sum := by
    have := List.card_nsmul_le_sum l c h
    simpa [nsmul_eq_mul] using this
  rw [qmean, le_div_iff₀ hlen]
  linarith

/- ------------------------------------------------------------------
C4: fetch retry behaviour
------------------------------------------------------------------ -/

/-- C4.  For every provider behaviour, `fred` makes at most three
attempts (and at least one); the backoff sleeps are `2 ^ (attempt - 1)`
seconds after each failed non-final attempt (so 1s then 2s); the result
is the named exhaustion error exactly when all three attempts fail
(an absent or empty provider result counting as a failure); and in that
case the call made exactly 3 attempts, slept 1s and 2s, and raised
rather than returning a value. -/
theorem fred_retry_behaviour (provider : Provider) (series : String) :
    (1 ≤ (fred provider series).attempts ∧ (fred provider series).attempts ≤ 3) ∧
    (fred provider series).waits =
      (List.range' 1 ((fred provider series).attempts - 1)).map (fun a => 2 ^ (a - 1)) ∧
    ((fred provider series).result = Except.error (exhaustMsg series) ↔
      (attemptFails provider 1 = true ∧ attemptFails provider 2 = true ∧
        attemptFails provider 3 = true)) ∧
    ((attemptFails provider 1 = true ∧ attemptFails provider 2 = true ∧
        attemptFails provider 3 = true) →
      fred provider series = ⟨Except.error (exhaustMsg series), 3, [1, 2]⟩) := by
  cases h1 : attemptFails provider 1 <;>
    cases h2 : attemptFails provider 2 <;>
      cases h3 : attemptFails provider 3 <;>
        simp [fred, fredAux, h1, h2, h3, List.range']

/-- Witness for C4: a provider that always raises leads to the
exhaustion error after exactly 3 attempts with sleeps of 1s and 2s. -/
theorem fred_retry_behaviour_witness :
    fred (fun _ => none) "UNRATE" =
      ⟨Except.error (exhaustMsg "UNRATE"), 3, [1, 2]⟩ :=
  (fred_retry_behaviour (fun _ => none) "UNRATE").2.2.2 ⟨rfl, rfl, rfl⟩

/- ------------------------------------------------------------------
Alignment lemmas
------------------------------------------------------------------ -/

lemma mem_range'_iff {a n m : ℕ} : m ∈ List.range' a n ↔ a ≤ m ∧ m < a + n := by
  rw [List.mem_range']
  constructor
  · rintro ⟨i, hi, rfl⟩; omega
  · intro h; exact ⟨m - a, by omega, by omega⟩

lemma mem_insertMonth {a m : ℕ} {l : List ℕ} :
    a ∈ insertMonth m l ↔ a = m ∨ a ∈ l := by
  induction l with
  | nil => simp [insertMonth]
  | cons x xs ih =>
    by_cases h1 : m < x
    · simp [insertMonth, h1]
    · by_cases h2 : m = x
      · subst h2
        rw [insertMonth, if_neg h1, if_pos rfl]
        simp only [List.mem_cons]
        tauto
      · simp [insertMonth, h1, h2, ih]
        tauto

lemma sorted_insertMonth {m : ℕ} {l : List ℕ} (h : l.Sorted (· < ·)) :
    (insertMonth m l).Sorted (· < ·) := by
  induction l with
  | nil => simp [insertMonth]
  | cons x xs ih =>
    rw [List.sorted_cons] at h
    obtain ⟨hx, hs⟩ := h
    by_cases h1 : m < x
    · rw [insertMonth]
      simp only [if_pos h1, List.sorted_cons]
      refine ⟨?_, hx, hs⟩
      intro b hb
      rcases List.mem_cons.mp hb with rfl | hb'
      · exact h1
      · exact lt_trans h1 (hx b hb')
    · by_cases h2 : m = x
      · rw [insertMonth]
        simp only [if_neg h1, if_pos h2]
        exact List.sorted_cons.mpr ⟨hx, hs⟩
      · rw [insertMonth]
        simp only [if_neg h1, if_neg h2, List.sorted_cons]
        refine ⟨?_, ih hs⟩
        intro b hb
        rcases mem_insertMonth.mp hb with rfl | hb'
        · omega
        · exact hx b hb'

lemma mem_foldr_insertMonth {ms acc : List ℕ} {a : ℕ} :
    a ∈ ms.foldr insertMonth acc ↔ a ∈ ms ∨ a ∈ acc := by
  induction ms with
  | nil => simp
  | cons x xs ih => simp [mem_insertMonth, ih, or_assoc]

lemma sorted_foldr_insertMonth {ms acc : List ℕ} (h : acc.Sorted (· < ·)) :
    (ms.foldr insertMonth acc).Sorted (· < ·) := by
  induction ms with
  | nil => exact h
  | cons x xs ih => exact sorted_insertMonth ih

lemma sorted_joinedIndex (r : RawInputs) :
    (joinedIndex r).Sorted (· < ·) := by
  unfold joinedIndex
  induction resampledCols r with
  | nil => simp
  | cons l ls ih => exact sorted_foldr_insertMonth ih

lemma mem_joinedIndex {r : RawInputs} {m : ℕ} :
    m ∈ joinedIndex r ↔ ∃ l ∈ resampledCols r, m ∈ monthsOf l := by
  unfold joinedIndex
  induction resampledCols r with
  | nil => simp
  | cons l ls ih => simp [mem_foldr_insertMonth, ih]

lemma firstMonth_bounds {s : RawS} {p : ℕ × ℚ} (hp : p ∈ s) :
    firstMonth s ≤ p.1 ∧ p.1 ≤ lastMonth s := by
  have hmem : p.1 ∈ s.map Prod.fst := List.mem_map_of_mem _ hp
  cases hmin : (s.map Prod.fst).min? with
  | none =>
    rw [List.min?_eq_none_iff] at hmin
    rw [hmin] at hmem
    cases hmem
  | some a =>
    cases hmax : (s.map Prod.fst).max? with
    | none =>
      rw [List.max?_eq_none_iff] at hmax
      rw [hmax] at hmem
      cases hmem
    | some c =>
      have ha := (List.min?_eq_some_iff'.mp hmin).2 _ hmem
      have hc := (List.max?_eq_some_iff'.mp hmax).2 _ hmem
      simp [firstMonth, lastMonth, hmin, hmax]
      exact ⟨ha, hc⟩

lemma firstMonth_le_lastMonth {s : RawS} (hs : s ≠ []) :
    firstMonth s ≤ lastMonth s := by
  cases s with
  | nil => cases hs rfl
  | cons p rest =>
    have := firstMonth_bounds (List.mem_cons_self p rest)
    omega

lemma firstMonth_mem {s : RawS} (hs : s ≠ []) :
    firstMonth s ∈ s.map Prod.fst := by
  cases hmin : (s.map Prod.fst).min? with
  | none =>
    rw [List.min?_eq_none_iff, List.map_eq_nil_iff] at hmin
    cases hs hmin
  | some a =>
    have := (List.min?_eq_some_iff'.mp hmin).1
    simpa [firstMonth, hmin] using this

lemma lastInMonth_firstMonth_ne {s : RawS} (hs : s ≠ []) :
    lastInMonth s (firstMonth s) ≠ none := by
  obtain ⟨p, hp, hfst⟩ := List.mem_map.mp (firstMonth_mem hs)
  rw [lastInMonth, Ne, List.getLast?_eq_none_iff, List.map_eq_nil_iff,
    List.filter_eq_nil_iff]
  intro hall
  exact hall p hp (by simp [hfst])

lemma monthsOf_resampleLast {s : RawS} (hs : s ≠ []) :
    monthsOf (resampleLast s) =
      List.range' (firstMonth s) (lastMonth s + 1 - firstMonth s) := by
  rw [resampleLast, if_neg hs, monthsOf, List.map_map]
  exact List.map_id _

lemma resampleLast_head {s : RawS} (hs : s ≠ []) :
    ∃ x rest, resampleLast s = (firstMonth s, some x) :: rest := by
  have hle := firstMonth_le_lastMonth hs
  obtain ⟨k, hk⟩ : ∃ k, lastMonth s + 1 - firstMonth s = k + 1 :=
    ⟨lastMonth s - firstMonth s, by omega⟩
  cases hlast : lastInMonth s (firstMonth s) with
  | none => cases lastInMonth_firstMonth_ne hs hlast
  | some x =>
    refine ⟨x, (List.range' (firstMonth s + 1) k).map (fun m => (m, lastInMonth s m)), ?_⟩
    rw [resampleLast, if_neg hs, hk, List.range'_succ, List.map_cons, hlast]

lemma ffillFrom_all_some {c : ℚ} {l : List (ℕ × Option ℚ)} :
    ∀ p ∈ ffillFrom (some c) l, p.2 ≠ none := by
  induction l generalizing c with
  | nil => simp [ffillFrom]
  | cons q rest ih =>
    obtain ⟨m, v⟩ := q
    cases v with
    | some x =>
      intro p hp
      rcases List.mem_cons.mp (by simpa [ffillFrom] using hp) with rfl | hp'
      · simp
      · exact ih _ hp'
    | none =>
      intro p hp
      rcases List.mem_cons.mp (by simpa [ffillFrom] using hp) with rfl | hp'
      · simp
      · exact ih _ hp'

lemma ffillCol_resample_all_some {s : RawS} (hs : s ≠ []) :
    ∀ p ∈ ffillCol (resampleLast s), p.2 ≠ none := by
  obtain ⟨x, rest, hr⟩ := resampleLast_head hs
  rw [ffillCol, hr]
  intro p hp
  rcases List.mem_cons.mp (by simpa [ffillFrom] using hp) with rfl | hp'
  · simp
  · exact ffillFrom_all_some _ hp'

lemma monthsOf_ffillFrom (c : Option ℚ) (l : List (ℕ × Option ℚ)) :
    monthsOf (ffillFrom c l) = monthsOf l := by
  induction l generalizing c with
  | nil => rfl
  | cons q rest ih =>
    obtain ⟨m, v⟩ := q
    cases v <;> simp [ffillFrom, monthsOf] <;>
      simpa [monthsOf] using ih _

lemma colLookup_ne_none {l : List (ℕ × Option ℚ)} {m : ℕ}
    (hall : ∀ p ∈ l, p.2 ≠ none) (hm : m ∈ monthsOf l) :
    colLookup l m ≠ none := by
  obtain ⟨p, hp, hfst⟩ := List.mem_map.mp hm
  have hsome : (l.find? (fun p => p.1 == m)).isSome :=
    List.find?_isSome.mpr ⟨p, hp, by simp [hfst]⟩
  cases hf : l.find? (fun p => p.1 == m) with
  | none => rw [hf] at hsome; cases hsome
  | some q =>
    have hq := List.mem_of_find?_eq_some hf
    have := hall q hq
    cases hv : q.2 with
    | none => cases this hv
    | some x => simp [colLookup, hf, hv]

/-- A month of the forward-filled delinquency grid inside the column's
own observed span is present in the joined index and carries a value. -/
lemma ffill_covered {s : RawS} {m : ℕ} (hs : s ≠ [])
    (h1 : firstMonth s ≤ m) (h2 : m ≤ lastMonth s) :
    m ∈ monthsOf (ffillCol (resampleLast s)) ∧
      colLookup (ffillCol (resampleLast s)) m ≠ none := by
  have hmonths : monthsOf (ffillCol (resampleLast s)) = monthsOf (resampleLast s) :=
    monthsOf_ffillFrom none _
  have hmem : m ∈ monthsOf (ffillCol (resampleLast s)) := by
    rw [hmonths, monthsOf_resampleLast hs, mem_range'_iff]
    omega
  exact ⟨hmem, colLookup_ne_none (ffillCol_resample_all_some hs) hmem⟩

/- ------------------------------------------------------------------
C5, C3, C8: alignment theorems
------------------------------------------------------------------ -/

/-- C5.  For every combination of input series, the joined index is
sorted, strictly increasing, duplicate-free, and consists of exactly the
months present in at least one resampled input series (the outer-join
union), so no series can truncate the months contributed by another. -/
theorem aligned_index_union (r : RawInputs) :
    List.Sorted (· < ·) (make_dashboard_df r).index ∧
    (make_dashboard_df r).index.Nodup ∧
    (∀ m, m ∈ (make_dashboard_df r).index ↔
      ∃ l ∈ resampledCols r, m ∈ monthsOf l) := by
  have hs : List.Sorted (· < ·) (joinedIndex r) := sorted_joinedIndex r
  exact ⟨hs, hs.nodup, fun m => mem_joinedIndex⟩

/-- Counterexample to C3 as stated: with a delinquency series ending at
month 0 while another series extends to month 1, the joined index ends
at month 1 but the forward-filled `DELINQ` column is missing there —
forward-fill is applied before the outer join, so it does not extend a
column past its own last observation to the end of the joined index. -/
theorem ffill_claim_counterexample :
    (make_dashboard_df ⟨[(0, 1), (1, 1)], [], [], [], [(0, 3)], [], [], []⟩).index = [0, 1] ∧
    firstMonth (⟨[(0, 1), (1, 1)], [], [], [], [(0, 3)], [], [], []⟩ : RawInputs).delinq = 0 ∧
    (make_dashboard_df ⟨[(0, 1), (1, 1)], [], [], [], [(0, 3)], [], [], []⟩).DELINQ 0 = some 3 ∧
    (make_dashboard_df ⟨[(0, 1), (1, 1)], [], [], [], [(0, 3)], [], [], []⟩).DELINQ 1 = none := by
  refine ⟨rfl, rfl, rfl, rfl⟩

/-- C3 (amended).  For every combination of input series, the
forward-filled columns (`DELINQ`, `USREC`) have no missing value at any
month of the joined index from the column's first raw observation
through the column's **last raw observation** (rather than through the
end of the joined index): every such month is in the index and its cell
is present. -/
theorem ffill_no_gap_through_last_obs (r : RawInputs) (m : ℕ) :
    (r.delinq ≠ [] → firstMonth r.delinq ≤ m → m ≤ lastMonth r.delinq →
      m ∈ (make_dashboard_df r).index ∧ (make_dashboard_df r).DELINQ m ≠ none) ∧
    (r.usrec ≠ [] → firstMonth r.usrec ≤ m → m ≤ lastMonth r.usrec →
      m ∈ (make_dashboard_df r).index ∧ (make_dashboard_df r).USREC m ≠ none) := by
  constructor
  · intro hs h1 h2
    obtain ⟨hmem, hval⟩ := ffill_covered hs h1 h2
    refine ⟨mem_joinedIndex.mpr ⟨ffillCol (resampleLast r.delinq), ?_, hmem⟩, hval⟩
    simp [resampledCols]
  · intro hs h1 h2
    obtain ⟨hmem, hval⟩ := ffill_covered hs h1 h2
    refine ⟨mem_joinedIndex.mpr ⟨ffillCol (resampleLast r.usrec), ?_, hmem⟩, hval⟩
    simp [resampledCols]

/-- Witness for the amended C3 at a concrete input: a delinquency
observation at month 0 and one at month 2 (nothing at month 1); month 1
is inside the span, lands in the joined index, and is forward-filled. -/
theorem ffill_no_gap_witness :
    1 ∈ (make_dashboard_df ⟨[], [], [], [], [(0, 3), (2, 4)], [], [], []⟩).index ∧
    (make_dashboard_df ⟨[], [], [], [], [(0, 3), (2, 4)], [], [], []⟩).DELINQ 1 ≠ none :=
  (ffill_no_gap_through_last_obs ⟨[], [], [], [], [(0, 3), (2, 4)], [], [], []⟩ 1).1
    (by decide) (by decide) (by decide)

/-- C8.  At every month, the derived `term_spread` cell is missing
exactly when `DGS2` or `DTB3` is missing there, and otherwise equals
their difference; it is computed from the already-joined columns. -/
theorem term_spread_pointwise (r : RawInputs) (m : ℕ) :
    ((make_dashboard_df r).term_spread m = none ↔
      ((make_dashboard_df r).DGS2 m = none ∨ (make_dashboard_df r).DTB3 m = none)) ∧
    (∀ a b, (make_dashboard_df r).DGS2 m = some a →
      (make_dashboard_df r).DTB3 m = some b →
      (make_dashboard_df r).term_spread m = some (a - b)) := by
  cases ha : colLookup (resampleLast r.dgs2) m <;>
    cases hb : colLookup (resampleLast r.dtb3) m <;>
      simp [make_dashboard_df, ha, hb]

/-- Witness for C8: with a 2-year rate of 4 and a 3-month rate of 6 at
month 0, the derived spread is `4 - 6`. -/
theorem term_spread_pointwise_witness :
    (make_dashboard_df ⟨[(0, 4)], [(0, 6)], [], [], [], [], [], []⟩).term_spread 0 =
      some (4 - 6) :=
  (term_spread_pointwise ⟨[(0, 4)], [(0, 6)], [], [], [], [], [], []⟩ 0).2 4 6 rfl rfl

/- ------------------------------------------------------------------
Trigger threshold lemmas
------------------------------------------------------------------ -/

lemma tier_le_iff {x a b : ℚ} (hab : a ≤ b) :
    ((if x ≤ a then TState.Danger else if x ≤ b then TState.Watch else TState.Normal) =
        TState.Danger ↔ x ≤ a) ∧
    ((if x ≤ a then TState.Danger else if x ≤ b then TState.Watch else TState.Normal) =
        TState.Watch ↔ a < x ∧ x ≤ b) ∧
    ((if x ≤ a then TState.Danger else if x ≤ b then TState.Watch else TState.Normal) =
        TState.Normal ↔ b < x) := by
  split_ifs with h1 h2
  · exact ⟨iff_of_true rfl h1,
      iff_of_false (by decide) (by rintro ⟨hax, -⟩; linarith),
      iff_of_false (by decide) (by intro hbx; linarith)⟩
  · exact ⟨iff_of_false (by decide) h1,
      iff_of_true rfl ⟨not_le.mp h1, h2⟩,
      iff_of_false (by decide) (by intro hbx; linarith)⟩
  · exact ⟨iff_of_false (by decide) h1,
      iff_of_false (by decide) (by rintro ⟨-, hxb⟩; exact h2 hxb),
      iff_of_true rfl (not_le.mp h2)⟩

lemma tier_ge_iff {x lo hi : ℚ} (hlh : lo ≤ hi) :
    ((if hi ≤ x then TState.Danger else if lo ≤ x then TState.Watch else TState.Normal) =
        TState.Danger ↔ hi ≤ x) ∧
    ((if hi ≤ x then TState.Danger else if lo ≤ x then TState.Watch else TState.Normal) =
        TState.Watch ↔ lo ≤ x ∧ x < hi) ∧
    ((if hi ≤ x then TState.Danger else if lo ≤ x then TState.Watch else TState.Normal) =
        TState.Normal ↔ x < lo) := by
  split_ifs with h1 h2
  · exact ⟨iff_of_true rfl h1,
      iff_of_false (by decide) (by rintro ⟨-, hxh⟩; linarith),
      iff_of_false (by decide) (by intro hxl; linarith)⟩
  · exact ⟨iff_of_false (by decide) h1,
      iff_of_true rfl ⟨h2, not_le.mp h1⟩,
      iff_of_false (by decide) (by intro hxl; linarith)⟩
  · exact ⟨iff_of_false (by decide) h1,
      iff_of_false (by decide) (by rintro ⟨hlx, -⟩; exact h2 hlx),
      iff_of_true rfl (not_le.mp h2)⟩

lemma zstate_iff (z : Option ℝ) :
    (zState z = TState.Danger ↔ ∃ t, z = some t ∧ (1 : ℝ) ≤ t) ∧
    (zState z = TState.Watch ↔ ∃ t, z = some t ∧ (0.5 : ℝ) ≤ t ∧ t < 1) ∧
    (zState z = TState.Normal ↔ ∀ t, z = some t → t < 0.5) := by
  cases z with
  | none => simp [zState]
  | some t =>
    simp only [zState, Option.some.injEq]
    split_ifs with h1 h2
    · refine ⟨iff_of_true rfl ⟨t, rfl, by linarith⟩,
        iff_of_false (by decide) ?_, iff_of_false (by decide) ?_⟩
      · rintro ⟨s, hs, -, hs1⟩
        cases hs; linarith
      · intro hall
        have := hall t rfl
        linarith
    · refine ⟨iff_of_false (by decide) ?_,
        iff_of_true rfl ⟨t, rfl, h2, by linarith⟩, iff_of_false (by decide) ?_⟩
      · rintro ⟨s, hs, hs1⟩
        cases hs; exact h1 (by linarith)
      · intro hall
        have := hall t rfl
        linarith
    · refine ⟨iff_of_false (by decide) ?_, iff_of_false (by decide) ?_,
        iff_of_true rfl ?_⟩
      · rintro ⟨s, hs, hs1⟩
        cases hs; exact h1 (by linarith)
      · rintro ⟨s, hs, hs2, -⟩
        cases hs; exact h2 (by linarith)
      · intro s hs
        cases hs
        exact lt_of_not_le h2

/- ------------------------------------------------------------------
C1, C2: trigger evaluator theorems
------------------------------------------------------------------ -/

/-- C1.  For every input whose filtered view has at least 13 rows,
evaluation succeeds and each of the five triggers assigns its state by
the tiered thresholds, with every boundary value resolving to the more
severe state: Term Spread Danger iff latest spread `≤ 0`, Watch iff in
`(0, 0.5]`; HY OAS Danger iff latest `≥ 6.0`, Watch iff in `[4.5, 6.0)`;
Temp Help YoY Danger iff the year-over-year change `≤ -6`, Watch iff in
`(-6, -3]`; Sahm Danger iff the gap `≥ 0.4`, Watch iff in `[0.2, 0.4)`;
Card Delinquency Danger iff the 60-period z-score is present and
`≥ 1.0`, Watch iff present and in `[0.5, 1.0)`, Normal otherwise. -/
theorem trigger_tier_thresholds (df : List TRow)
    (h : 13 ≤ (dropnaRequired df).length) :
    ∃ t, evaluate_triggers df = Except.ok t ∧
      (t.termSpread = TState.Danger ↔ tsLatest (dropnaRequired df) ≤ 0) ∧
      (t.termSpread = TState.Watch ↔
        0 < tsLatest (dropnaRequired df) ∧ tsLatest (dropnaRequired df) ≤ 0.5) ∧
      (t.termSpread = TState.Normal ↔ 0.5 < tsLatest (dropnaRequired df)) ∧
      (t.hyOAS = TState.Danger ↔ 6.0 ≤ hyLatest (dropnaRequired df)) ∧
      (t.hyOAS = TState.Watch ↔
        4.5 ≤ hyLatest (dropnaRequired df) ∧ hyLatest (dropnaRequired df) < 6.0) ∧
      (t.hyOAS = TState.Normal ↔ hyLatest (dropnaRequired df) < 4.5) ∧
      (t.tempHelpYoY = TState.Danger ↔ tempYoY (dropnaRequired df) ≤ -6) ∧
      (t.tempHelpYoY = TState.Watch ↔
        -6 < tempYoY (dropnaRequired df) ∧ tempYoY (dropnaRequired df) ≤ -3) ∧
      (t.tempHelpYoY = TState.Normal ↔ -3 < tempYoY (dropnaRequired df)) ∧
      (t.sahm = TState.Danger ↔ 0.4 ≤ sahmGap (dropnaRequired df)) ∧
      (t.sahm = TState.Watch ↔
        0.2 ≤ sahmGap (dropnaRequired df) ∧ sahmGap (dropnaRequired df) < 0.4) ∧
      (t.sahm = TState.Normal ↔ sahmGap (dropnaRequired df) < 0.2) ∧
      (t.cardDelinq = TState.Danger ↔
        ∃ z, delinqZ (dropnaRequired df) = some z ∧ (1 : ℝ) ≤ z) ∧
      (t.cardDelinq = TState.Watch ↔
        ∃ z, delinqZ (dropnaRequired df) = some z ∧ (0.5 : ℝ) ≤ z ∧ z < 1) ∧
      (t.cardDelinq = TState.Normal ↔
        ∀ z, delinqZ (dropnaRequired df) = some z → z < 0.5) := by
  have hlt : ¬ (dropnaRequired df).length < 13 := by omega
  simp only [evaluate_triggers]
  rw [if_neg hlt]
  obtain ⟨ts1, ts2, ts3⟩ := tier_le_iff (x := tsLatest (dropnaRequired df))
    (show (0 : ℚ) ≤ 0.5 by norm_num)
  obtain ⟨hy1, hy2, hy3⟩ := tier_ge_iff (x := hyLatest (dropnaRequired df))
    (show (4.5 : ℚ) ≤ 6.0 by norm_num)
  obtain ⟨tp1, tp2, tp3⟩ := tier_le_iff (x := tempYoY (dropnaRequired df))
    (show (-6 : ℚ) ≤ -3 by norm_num)
  obtain ⟨sa1, sa2, sa3⟩ := tier_ge_iff (x := sahmGap (dropnaRequired df))
    (show (0.2 : ℚ) ≤ 0.4 by norm_num)
  obtain ⟨dz1, dz2, dz3⟩ := zstate_iff (delinqZ (dropnaRequired df))
  exact ⟨_, rfl, ts1, ts2, ts3, hy1, hy2, hy3, tp1, tp2, tp3, sa1, sa2, sa3,
    dz1, dz2, dz3⟩

/-- Example input: 13 fully populated rows. -/
def exRow : TRow := ⟨some 4, some 3, some 100, some 2, some 1⟩

/-- Example input: 13 identical fully populated rows. -/
def exDF13 : List TRow := List.replicate 13 exRow

/-- Witness for C1: the 13-row example clears the history check and
evaluation succeeds. -/
theorem trigger_tier_thresholds_witness :
    13 ≤ (dropnaRequired exDF13).length ∧
      ∃ t, evaluate_triggers exDF13 = Except.ok t := by
  refine ⟨by decide, ?_⟩
  obtain ⟨t, ht, -⟩ := trigger_tier_thresholds exDF13 (by decide)
  exact ⟨t, ht⟩

/-- C2.  For every input dataset, evaluation raises the "insufficient
history" error exactly when the filtered view (rows with all five
required columns present) has fewer than 13 rows, and succeeds —
returning a state for every trigger — whenever it has at least 13. -/
theorem insufficient_history_iff (df : List TRow) :
    (evaluate_triggers df = Except.error insufficientMsg ↔
      (dropnaRequired df).length < 13) ∧
    (13 ≤ (dropnaRequired df).length → ∃ t, evaluate_triggers df = Except.ok t) := by
  by_cases h : (dropnaRequired df).length < 13
  · refine ⟨iff_of_true ?_ h, fun h13 => absurd h13 (by omega)⟩
    simp [evaluate_triggers, h]
  · constructor
    · refine iff_of_false ?_ h
      simp only [evaluate_triggers]
      rw [if_neg h]
      simp
    · intro _
      exact ⟨_, by simp only [evaluate_triggers]; rw [if_neg h]⟩

/-- Witness for C2: the empty dataset raises the insufficient-history
error, while the 13-row example succeeds. -/
theorem insufficient_history_iff_witness :
    evaluate_triggers [] = Except.error insufficientMsg ∧
      ∃ t, evaluate_triggers exDF13 = Except.ok t :=
  ⟨(insufficient_history_iff []).1.mpr (by decide),
    (insufficient_history_iff exDF13).2 (by decide)⟩

/- ------------------------------------------------------------------
Rolling-window access lemmas
------------------------------------------------------------------ -/

lemma rollingMean_getD_lt {xs : List ℚ} {w i : ℕ} (hi : i < xs.length)
    (hw : i + 1 < w) : (rollingMean xs w).getD i none = none := by
  rw [rollingMean, rangeMap_getD _ _ _ _ hi, if_pos hw]

lemma rollingMean_getD_ge {xs : List ℚ} {w i : ℕ} (hi : i < xs.length)
    (hw : w ≤ i + 1) :
    (rollingMean xs w).getD i none = some (qmean (winAt xs w i)) := by
  rw [rollingMean, rangeMap_getD _ _ _ _ hi, if_neg (by omega)]

lemma winAt_last {xs : List ℚ} (w : ℕ) (h0 : 0 < xs.length) :
    winAt xs w (xs.length - 1) = xs.drop (xs.length - w) := by
  rw [winAt]
  have h1 : xs.length - 1 + 1 = xs.length := by omega
  rw [h1, List.take_length]

/- ------------------------------------------------------------------
C9, C10: Sahm gap sign and short-history z-score
------------------------------------------------------------------ -/

/-- C9.  For every filtered view with at least 13 rows, the Sahm gap —
the 3-month trailing mean of unemployment minus the 12-month trailing
minimum — is nonnegative, because the three averaged values all lie in
the window of the minimum. -/
theorem sahm_gap_nonneg (df : List TRow) (h : 13 ≤ (dropnaRequired df).length) :
    0 ≤ sahmGap (dropnaRequired df) := by
  set v := dropnaRequired df with hv
  set u := v.map QRow.UNRATE with hu
  have hlen : u.length = v.length := List.length_map _ _
  have h3 : sahm3mma v = qmean (u.drop (u.length - 3)) := by
    rw [sahm3mma, ← hu, rollingMean, rangeMap_getLast? _ _ (by omega),
      Option.getD_some, if_neg (by omega), Option.getD_some, winAt_last 3 (by omega)]
  obtain ⟨m, hm⟩ : ∃ m, (u.drop (v.length - 12)).min? = some m := by
    cases hmin : (u.drop (v.length - 12)).min? with
    | none =>
      rw [List.min?_eq_none_iff] at hmin
      have hl : (u.drop (v.length - 12)).length = 12 := by
        rw [List.length_drop]; omega
      rw [hmin] at hl
      simp at hl
    | some m => exact ⟨m, rfl⟩
  have hlow_eq : sahmLow v = m := by
    rw [sahmLow, ← hu, hm, Option.getD_some]
  have hdrop : u.drop (u.length - 3) = (u.drop (v.length - 12)).drop 9 := by
    rw [List.drop_drop]
    congr 1
    omega
  have hne : u.drop (u.length - 3) ≠ [] := by
    have : 0 < (u.drop (u.length - 3)).length := by
      rw [List.length_drop]; omega
    exact List.length_pos.mp this
  have hmean : m ≤ qmean (u.drop (u.length - 3)) := by
    refine le_qmean_of_forall_le hne (fun x hx => min?_le hm ?_)
    rw [hdrop] at hx
    exact List.drop_subset _ _ hx
  rw [sahmGap, h3, hlow_eq]
  linarith

/-- Witness for C9: on the 13-row example the Sahm gap is nonnegative. -/
theorem sahm_gap_nonneg_witness :
    13 ≤ (dropnaRequired exDF13).length ∧ 0 ≤ sahmGap (dropnaRequired exDF13) :=
  ⟨by decide, sahm_gap_nonneg exDF13 (by decide)⟩

lemma delinqZ_none_of_short {v : List QRow} (h0 : 0 < v.length)
    (h : v.length < 60) : delinqZ v = none := by
  set xs := v.map QRow.DELINQ with hxs
  have hlen : xs.length = v.length := List.length_map _ _
  rw [delinqZ, ← hxs, zscore, rangeMap_getLast? _ _ (by omega), Option.getD_some,
    rollingMean_getD_lt (by omega) (by omega)]

/-- C10.  For every filtered view with at least 13 but fewer than 60
rows, the 60-period rolling z-score of delinquency is missing at the
latest row, and the Card Delinquency trigger reports `Normal` (the
missing value fails both threshold comparisons) while evaluation still
succeeds. -/
theorem delinq_z_missing_normal (df : List TRow)
    (h13 : 13 ≤ (dropnaRequired df).length)
    (h60 : (dropnaRequired df).length < 60) :
    delinqZ (dropnaRequired df) = none ∧
      ∃ t, evaluate_triggers df = Except.ok t ∧ t.cardDelinq = TState.Normal := by
  have hz : delinqZ (dropnaRequired df) = none :=
    delinqZ_none_of_short (by omega) h60
  refine ⟨hz, ?_⟩
  simp only [evaluate_triggers]
  rw [if_neg (show ¬ (dropnaRequired df).length < 13 by omega)]
  refine ⟨_, rfl, ?_⟩
  dsimp only
  rw [hz]
  rfl

/-- Witness for C10: the 13-row example (shorter than the 60-row
z-score window) has a missing latest z-score and a `Normal` state. -/
theorem delinq_z_missing_normal_witness :
    delinqZ (dropnaRequired exDF13) = none ∧
      ∃ t, evaluate_triggers exDF13 = Except.ok t ∧
        t.cardDelinq = TState.Normal :=
  delinq_z_missing_normal exDF13 (by decide) (by decide)

/- ------------------------------------------------------------------
C6: NY Fed probability model
------------------------------------------------------------------ -/

lemma map_getD {α β : Type*} (f : α → β) (l : List α) (i : ℕ) (d₁ : β)
    (d₂ : α) (h : i < l.length) : (l.map f).getD i d₁ = f (l.getD i d₂) := by
  rw [List.getD_eq_getElem?_getD, List.getElem?_map,
    List.getD_eq_getElem?_getD, List.getElem?_eq_getElem h]
  rfl

lemma nyfedProbSpec_tendsto_atTop :
    Filter.Tendsto nyfedProbSpec Filter.atTop (nhds 0) := by
  have h1 : Filter.Tendsto (fun s : ℝ => (1.6278 : ℝ) * s)
      Filter.atTop Filter.atTop :=
    Filter.Tendsto.const_mul_atTop (by norm_num) Filter.tendsto_id
  have h2 : Filter.Tendsto (fun s : ℝ => 0.5333 + (1.6278 : ℝ) * s)
      Filter.atTop Filter.atTop :=
    Filter.tendsto_atTop_add_const_left _ _ h1
  have hg : Filter.Tendsto (fun s : ℝ => -((-0.5333) + (-1.6278) * s))
      Filter.atTop Filter.atTop :=
    h2.congr (fun s => by ring)
  have hexp :
      Filter.Tendsto (fun s : ℝ => Real.exp (-((-0.5333) + (-1.6278) * s)))
        Filter.atTop Filter.atTop :=
    Real.tendsto_exp_atTop.comp hg
  have hden :
      Filter.Tendsto (fun s : ℝ => 1 + Real.exp (-((-0.5333) + (-1.6278) * s)))
        Filter.atTop Filter.atTop :=
    Filter.tendsto_atTop_add_const_left _ _ hexp
  exact Filter.Tendsto.div_atTop
    (tendsto_const_nhds : Filter.Tendsto (fun _ : ℝ => (100 : ℝ)) _ _) hden

lemma nyfedProbSpec_tendsto_atBot :
    Filter.Tendsto nyfedProbSpec Filter.atBot (nhds 100) := by
  have h1 : Filter.Tendsto (fun s : ℝ => (1.6278 : ℝ) * s)
      Filter.atBot Filter.atBot :=
    Filter.Tendsto.const_mul_atBot (by norm_num) Filter.tendsto_id
  have h2 : Filter.Tendsto (fun s : ℝ => 0.5333 + (1.6278 : ℝ) * s)
      Filter.atBot Filter.atBot :=
    Filter.tendsto_atBot_add_const_left _ _ h1
  have hg : Filter.Tendsto (fun s : ℝ => -((-0.5333) + (-1.6278) * s))
      Filter.atBot Filter.atBot :=
    h2.congr (fun s => by ring)
  have hexp :
      Filter.Tendsto (fun s : ℝ => Real.exp (-((-0.5333) + (-1.6278) * s)))
        Filter.atBot (nhds 0) :=
    Real.tendsto_exp_atBot.comp hg
  have hone : Filter.Tendsto (fun _ : ℝ => (1 : ℝ)) Filter.atBot (nhds 1) :=
    tendsto_const_nhds
  have hden :
      Filter.Tendsto (fun s : ℝ => 1 + Real.exp (-((-0.5333) + (-1.6278) * s)))
        Filter.atBot (nhds 1) := by
    have h := hone.add hexp
    rw [add_zero] at h
    exact h
  have hdiv :
      Filter.Tendsto (fun s : ℝ => 100 / (1 + Real.exp (-((-0.5333) + (-1.6278) * s))))
        Filter.atBot (nhds (100 / 1)) :=
    Filter.Tendsto.div tendsto_const_nhds hden (by norm_num)
  rw [show (100 : ℝ) / 1 = 100 by norm_num] at hdiv
  exact hdiv

/-- C6.  `build_nyfed_prob` keeps one entry per input row (the full
index); a row's probability is missing exactly when `DGS10` or `DTB3`
is missing there; a present row with spread `a - b` gets
`100 / (1 + exp(-(-0.5333 + -1.6278 * (a - b))))`; a zero spread yields
`100 / (1 + exp 0.5333)`; and as the spread tends to `+∞` (resp. `-∞`)
the probability tends to `0` (resp. `100`). -/
theorem nyfed_prob_model (rows : List MRow) :
    (build_nyfed_prob rows).length = rows.length ∧
    (∀ i, i < rows.length →
      (((build_nyfed_prob rows).getD i none = none ↔
        ((rows.getD i ⟨none, none⟩).DGS10 = none ∨
          (rows.getD i ⟨none, none⟩).DTB3 = none)) ∧
      (∀ a b, (rows.getD i ⟨none, none⟩).DGS10 = some a →
        (rows.getD i ⟨none, none⟩).DTB3 = some b →
        (build_nyfed_prob rows).getD i none =
          some (nyfedProbSpec ((a : ℝ) - (b : ℝ)))))) ∧
    nyfedProbSpec 0 = 100 / (1 + Real.exp 0.5333) ∧
    Filter.Tendsto nyfedProbSpec Filter.atTop (nhds 0) ∧
    Filter.Tendsto nyfedProbSpec Filter.atBot (nhds 100) := by
  refine ⟨by simp [build_nyfed_prob], fun i hi => ?_, ?_, nyfedProbSpec_tendsto_atTop,
    nyfedProbSpec_tendsto_atBot⟩
  · rw [build_nyfed_prob, map_getD _ _ _ _ ⟨none, none⟩ hi]
    cases hA : (rows.getD i ⟨none, none⟩).DGS10 with
    | none =>
      refine ⟨by simp, ?_⟩
      intro a b ha hb
      cases ha
    | some a =>
      cases hB : (rows.getD i ⟨none, none⟩).DTB3 with
      | none =>
        refine ⟨by simp, ?_⟩
        intro a' b' ha' hb'
        cases hb'
      | some b =>
        refine ⟨by simp, ?_⟩
        intro a' b' ha' hb'
        cases ha'
        cases hb'
        dsimp only
        rw [nyfedProbSpec, div_mul_eq_mul_div, one_mul]
  · rw [nyfedProbSpec]
    norm_num

/-- Witness for C6: a row with a 10-year rate of 2 and a 3-month rate
of 1 gets the closed-form probability at spread `2 - 1`. -/
theorem nyfed_prob_model_witness :
    (build_nyfed_prob [⟨some 2, some 1⟩]).getD 0 none =
      some (nyfedProbSpec (((2 : ℚ) : ℝ) - ((1 : ℚ) : ℝ))) :=
  ((nyfed_prob_model [⟨some 2, some 1⟩]).2.1 0 (by decide)).2 2 1 rfl rfl

/- ------------------------------------------------------------------
C7: z-score characterization
------------------------------------------------------------------ -/

lemma rollingStd_getD_none {xs : List ℚ} {w i : ℕ} (hi : i < xs.length)
    (h : i + 1 < w ∨ w < 2) : (rollingStd xs w).getD i none = none := by
  rw [rollingStd, rangeMap_getD _ _ _ _ hi, if_pos h]

lemma rollingStd_getD_big {xs : List ℚ} {w i : ℕ} (hi : i < xs.length)
    (hw2 : 2 ≤ w) (hwi : w ≤ i + 1) :
    (rollingStd xs w).getD i none =
      some (Real.sqrt ((sampleVarQ (winAt xs w i) : ℚ) : ℝ)) := by
  rw [rollingStd, rangeMap_getD _ _ _ _ hi, if_neg (by omega)]

/-- C7.  `zscore` is the elementwise quotient of `series - rolling_mean`
by the rolling sample standard deviation: all three lists share the
input's length; below a full window both rolling statistics are missing
(and for `w = 1` the sample std is always missing); the z-score is
missing exactly where the rolling mean is missing, the rolling std is
missing, or the rolling std is zero — never a substitute value — and
where both operands are present with nonzero std it equals
`(value - mean) / std`. -/
theorem zscore_spec (xs : List ℚ) (w : ℕ) (_hw : 1 ≤ w) :
    (zscore xs w).length = xs.length ∧
    (rollingMean xs w).length = xs.length ∧
    (rollingStd xs w).length = xs.length ∧
    ∀ i, i < xs.length →
      ((i + 1 < w → (rollingMean xs w).getD i none = none ∧
          (rollingStd xs w).getD i none = none) ∧
        (w ≤ i + 1 →
          (rollingMean xs w).getD i none = some (qmean (winAt xs w i)) ∧
          (2 ≤ w → (rollingStd xs w).getD i none =
            some (Real.sqrt ((sampleVarQ (winAt xs w i) : ℚ) : ℝ)))) ∧
        (w = 1 → (rollingStd xs w).getD i none = none) ∧
        ((zscore xs w).getD i none = none ↔
          ((rollingMean xs w).getD i none = none ∨
            (rollingStd xs w).getD i none = none ∨
            (rollingStd xs w).getD i none = some 0)) ∧
        (∀ m s, (rollingMean xs w).getD i none = some m →
          (rollingStd xs w).getD i none = some s → s ≠ 0 →
          (zscore xs w).getD i none =
            some ((((xs.getD i 0 - m : ℚ)) : ℝ) / s))) := by
  refine ⟨by simp [zscore], by simp [rollingMean], by simp [rollingStd],
    fun i hi => ⟨?_, ?_, ?_, ?_, ?_⟩⟩
  · intro hlt
    exact ⟨rollingMean_getD_lt hi hlt, rollingStd_getD_none hi (Or.inl hlt)⟩
  · intro hge
    exact ⟨rollingMean_getD_ge hi hge, fun hw2 => rollingStd_getD_big hi hw2 hge⟩
  · intro hw1
    exact rollingStd_getD_none hi (Or.inr (by omega))
  · rw [zscore, rangeMap_getD _ _ _ _ hi]
    cases hm : (rollingMean xs w).getD i none with
    | none => simp
    | some m =>
      cases hs : (rollingStd xs w).getD i none with
      | none => simp
      | some s =>
        by_cases h0 : s = 0
        · subst h0
          simp
        · simp [h0]
  · intro m s hm hs h0
    rw [zscore, rangeMap_getD _ _ _ _ hi, hm, hs]
    dsimp only
    rw [if_neg h0]

/-- Witness for C7: on the series `[1, 3]` with a 2-wide window, the
final rolling mean and rolling sample standard deviation take their
closed forms. -/
theorem zscore_spec_witness :
    (rollingMean [1, 3] 2).getD 1 none = some (qmean (winAt [1, 3] 2 1)) ∧
    (rollingStd [1, 3] 2).getD 1 none =
      some (Real.sqrt ((sampleVarQ (winAt [1, 3] 2 1) : ℚ) : ℝ)) := by
  have h := ((zscore_spec [1, 3] 2 (by decide)).2.2.2 1 (by decide)).2.1 (by decide)
  exact ⟨h.1, h.2 (by decide)⟩
